import Mathlib

/-!
Verification of the metahuman skeleton orientation solver.

The Python sources are shallowly embedded: numpy float arithmetic is
modelled over the real numbers `ℝ`, numpy arrays become Lean lists, and
Python exceptions become `Except` results.  Integer tables and string
pattern matching stay fully computable, so branch selection in the
hardcoded classifier evaluates by `rfl`/`decide`.
-/

/-- A 3-vector with real components (models a numpy float 3-array). -/
@[ext]
structure Vec3 where
  x : ℝ
  y : ℝ
  z : ℝ

/-- A quaternion in (w, x, y, z) order, as used throughout
`quaternion_solver.py`. -/
@[ext]
structure Quat where
  w : ℝ
  x : ℝ
  y : ℝ
  z : ℝ

def Vec3.sub (a b : Vec3) : Vec3 := ⟨a.x - b.x, a.y - b.y, a.z - b.z⟩

def Vec3.add (a b : Vec3) : Vec3 := ⟨a.x + b.x, a.y + b.y, a.z + b.z⟩

noncomputable def Vec3.smul (c : ℝ) (v : Vec3) : Vec3 := ⟨c * v.x, c * v.y, c * v.z⟩

/-- `np.dot` on 3-vectors. -/
def Vec3.dot (a b : Vec3) : ℝ := a.x * b.x + a.y * b.y + a.z * b.z

/-- `np.cross` on 3-vectors. -/
def Vec3.cross (a b : Vec3) : Vec3 :=
  ⟨a.y * b.z - a.z * b.y, a.z * b.x - a.x * b.z, a.x * b.y - a.y * b.x⟩

/-- `np.linalg.norm` on 3-vectors. -/
noncomputable def Vec3.norm (v : Vec3) : ℝ := Real.sqrt (v.dot v)

def vzero : Vec3 := ⟨0, 0, 0⟩

def qzero : Quat := ⟨0, 0, 0, 0⟩

/-- The identity quaternion (1, 0, 0, 0). -/
def idQuat : Quat := ⟨1, 0, 0, 0⟩

/-- Squared euclidean norm of a quaternion (its 4 components). -/
def Quat.normSq (q : Quat) : ℝ := q.w * q.w + q.x * q.x + q.y * q.y + q.z * q.z

/-- Euclidean norm of a quaternion. -/
noncomputable def Quat.norm (q : Quat) : ℝ := Real.sqrt q.normSq

/-- Python's `needle in haystack` on strings, as a decidable substring
test over the character lists. `leadChars n h` decides whether `n` is a
leading segment of `h`. -/
def leadChars : List Char → List Char → Bool
  | [], _ => true
  | _ :: _, [] => false
  | a :: as, b :: bs => a == b && leadChars as bs

/-- Substring containment on character lists. -/
def hasSubChars (needle : List Char) : List Char → Bool
  | [] => leadChars needle []
  | b :: bs => leadChars needle (b :: bs) || hasSubChars needle bs

/-- `needle in hay` for Python strings. -/
def strContains (hay needle : String) : Bool :=
  hasSubChars needle.data hay.data

example : strContains "twist_01_upperarm_l" "twist" = true := by decide
example : strContains "spine_01" "clavicle" = false := by decide
example : strContains "hand_l" "_l" = true := by decide

/-- `MetahumanSkeleton.bone_names`: the 68 bone names. -/
def bone_names : List String :=
  ["root",
   "pelvis",
   "spine_01", "spine_02", "spine_03",
   "neck_01", "head",
   "clavicle_l", "upperarm_l", "lowerarm_l", "hand_l",
   "thumb_01_l", "thumb_02_l", "thumb_03_l",
   "index_01_l", "index_02_l", "index_03_l",
   "middle_01_l", "middle_02_l", "middle_03_l",
   "ring_01_l", "ring_02_l", "ring_03_l",
   "pinky_01_l", "pinky_02_l", "pinky_03_l",
   "clavicle_r", "upperarm_r", "lowerarm_r", "hand_r",
   "thumb_01_r", "thumb_02_r", "thumb_03_r",
   "index_01_r", "index_02_r", "index_03_r",
   "middle_01_r", "middle_02_r", "middle_03_r",
   "ring_01_r", "ring_02_r", "ring_03_r",
   "pinky_01_r", "pinky_02_r", "pinky_03_r",
   "thigh_l", "calf_l", "foot_l", "ball_l",
   "thigh_r", "calf_r", "foot_r", "ball_r",
   "ik_foot_root", "ik_foot_l", "ik_foot_r",
   "ik_hand_root", "ik_hand_gun", "ik_hand_l", "ik_hand_r",
   "jaw", "eye_l", "eye_r",
   "breast_l", "breast_r",
   "twist_01_thigh_l", "twist_01_thigh_r",
   "twist_01_upperarm_l"]

/-- `MetahumanSkeleton.parent_indices`: parent bone index for each of the
68 bones (-1 for the root). -/
def parent_indices : List ℤ :=
  [-1,
   0,
   1, 2, 3,
   4, 5,
   4, 7, 8, 9,
   10, 11, 12,
   10, 14, 15,
   10, 17, 18,
   10, 20, 21,
   10, 23, 24,
   4, 26, 27, 28,
   29, 30, 31,
   29, 33, 34,
   29, 36, 37,
   29, 39, 40,
   29, 42, 43,
   1, 45, 46, 47,
   1, 49, 50, 51,
   0, 53, 53,
   0, 56, 56, 56,
   6, 6, 6,
   4, 4,
   45, 49,
   8]

lemma bone_names_length : bone_names.length = 68 := rfl

lemma parent_indices_length : parent_indices.length = 68 := rfl

/-- The finger-name patterns used by
`MetahumanSkeleton.get_tpose_parent_to_child_direction`. -/
def fingers : List String := ["thumb", "index", "middle", "ring", "pinky"]

/-- `self.bone_names[i]` (the table lookup used for pattern matching). -/
def boneNameAt (i : ℤ) : String := bone_names.getD i.toNat ""

/-- `main_parent_idx` as computed in the twist branch of
`MetahumanSkeleton.get_tpose_parent_to_child_direction`:
`self.parent_indices[parent_index] if parent_index > 0 else -1`. -/
def mainParentIdx (parent_index : ℤ) : ℤ :=
  if 0 < parent_index then parent_indices.getD parent_index.toNat 0 else -1

/-- One unfolding of the body of
`MetahumanSkeleton.get_tpose_parent_to_child_direction`, with the value
of the recursive twist-bone call supplied as the argument `twistVal`
(the recursion is total, so passing its value is equivalent to the
lazy call in Python).  Every branch is a verbatim translation of the
corresponding Python branch. -/
noncomputable def dirBody (twistVal : Vec3) (parent_index child_index : ℤ) : Vec3 :=
  if parent_index < 0 ∨ child_index < 0 ∨
      (bone_names.length : ℤ) ≤ parent_index ∨
      (bone_names.length : ℤ) ≤ child_index then
    ⟨0, 1, 0⟩
  else if boneNameAt parent_index == "root" && boneNameAt child_index == "pelvis" then
    ⟨0, 1, 0⟩
  else if strContains (boneNameAt parent_index) "spine" &&
      (strContains (boneNameAt child_index) "spine" ||
       strContains (boneNameAt child_index) "neck") then
    ⟨0, 1, 0⟩
  else if strContains (boneNameAt parent_index) "neck" &&
      strContains (boneNameAt child_index) "head" then
    ⟨0, 1, 0⟩
  else if strContains (boneNameAt parent_index) "spine" &&
      strContains (boneNameAt child_index) "clavicle" then
    (if strContains (boneNameAt child_index) "_l" then ⟨-1, 0, 0⟩ else ⟨1, 0, 0⟩)
  else if strContains (boneNameAt parent_index) "clavicle" &&
      strContains (boneNameAt child_index) "upperarm" then
    (if strContains (boneNameAt child_index) "_l" then ⟨-1, 0, 0⟩ else ⟨1, 0, 0⟩)
  else if (strContains (boneNameAt parent_index) "upperarm" &&
        strContains (boneNameAt child_index) "lowerarm") ||
      (strContains (boneNameAt parent_index) "lowerarm" &&
        strContains (boneNameAt child_index) "hand") then
    (if strContains (boneNameAt child_index) "_l" then ⟨-1, 0, 0⟩ else ⟨1, 0, 0⟩)
  else if strContains (boneNameAt parent_index) "hand" &&
      fingers.any (fun f => strContains (boneNameAt child_index) f) then
    (if strContains (boneNameAt child_index) "thumb" then
      (if strContains (boneNameAt child_index) "_l" then ⟨-0.5, 0, 0.866⟩
       else ⟨0.5, 0, 0.866⟩)
     else (if strContains (boneNameAt child_index) "_l" then ⟨-1, 0, 0⟩ else ⟨1, 0, 0⟩))
  else if fingers.any (fun f => strContains (boneNameAt parent_index) f) &&
      fingers.any (fun f => strContains (boneNameAt child_index) f) then
    (if strContains (boneNameAt parent_index) "thumb" then
      (if strContains (boneNameAt child_index) "_l" then ⟨-0.5, 0, 0.866⟩
       else ⟨0.5, 0, 0.866⟩)
     else (if strContains (boneNameAt child_index) "_l" then ⟨-1, 0, 0⟩ else ⟨1, 0, 0⟩))
  else if strContains (boneNameAt parent_index) "pelvis" &&
      strContains (boneNameAt child_index) "thigh" then
    ⟨0, -1, 0⟩
  else if (strContains (boneNameAt parent_index) "thigh" &&
        strContains (boneNameAt child_index) "calf") ||
      (strContains (boneNameAt parent_index) "calf" &&
        strContains (boneNameAt child_index) "foot") then
    ⟨0, -1, 0⟩
  else if strContains (boneNameAt parent_index) "foot" &&
      strContains (boneNameAt child_index) "ball" then
    ⟨0, 0, 1⟩
  else if strContains (boneNameAt parent_index) "head" &&
      (boneNameAt child_index == "jaw" || boneNameAt child_index == "eye_l" ||
       boneNameAt child_index == "eye_r") then
    (if boneNameAt child_index == "jaw" then ⟨0, -1, 0⟩ else ⟨0, 0, 1⟩)
  else if strContains (boneNameAt parent_index) "spine" &&
      strContains (boneNameAt child_index) "breast" then
    ⟨0, 0, 1⟩
  else if strContains (boneNameAt child_index) "twist" then
    (if 0 ≤ mainParentIdx parent_index then twistVal else ⟨0, 1, 0⟩)
  else if strContains (boneNameAt parent_index) "ik_" ||
      strContains (boneNameAt child_index) "ik_" then
    ⟨0, 1, 0⟩
  else ⟨0, 1, 0⟩

/-- The recursion of `get_tpose_parent_to_child_direction`, embedded with
an explicit fuel argument so the definition is structurally recursive
(the Python recursion strictly decreases the parent index along the
hardcoded table; `dirAux_fuel` shows the answer is fuel-independent once
the fuel exceeds a bound on the recursion depth). -/
noncomputable def dirAux : ℕ → ℤ → ℤ → Vec3
  | 0, _, _ => ⟨0, 1, 0⟩
  | fuel + 1, parent_index, child_index =>
    dirBody
      (if 0 ≤ mainParentIdx parent_index then
        dirAux fuel (mainParentIdx parent_index) parent_index
       else ⟨0, 1, 0⟩)
      parent_index child_index

/-- `MetahumanSkeleton.get_tpose_parent_to_child_direction`: T-pose
reference direction for a (parent, child) bone index pair.  The fuel 68
covers the maximal possible recursion depth. -/
noncomputable def get_tpose_parent_to_child_direction (parent_index child_index : ℤ) : Vec3 :=
  dirAux 68 parent_index child_index

example : get_tpose_parent_to_child_direction 0 1 = ⟨0, 1, 0⟩ := rfl
example : get_tpose_parent_to_child_direction 10 11 = ⟨-0.5, 0, 0.866⟩ := rfl
example : get_tpose_parent_to_child_direction 8 67 = ⟨-1, 0, 0⟩ := rfl
example : get_tpose_parent_to_child_direction 45 65 = ⟨0, -1, 0⟩ := rfl
example : get_tpose_parent_to_child_direction (-1) 3 = ⟨0, 1, 0⟩ := rfl

/-- The hardcoded parent table sends every non-root bone index to a
strictly smaller, nonnegative parent index. -/
lemma parent_indices_lt :
    ∀ n : ℕ, n < 68 → 1 ≤ n →
      0 ≤ parent_indices.getD n 0 ∧ parent_indices.getD n 0 < (n : ℤ) := by
  decide

/-- Looking up the parent table outside its 68 entries returns the
`getD` default 0. -/
lemma parent_indices_getD_oob (n : ℕ) (hn : 68 ≤ n) : parent_indices.getD n 0 = 0 := by
  apply List.getD_eq_default
  rw [parent_indices_length]; omega

/-- Bound on the depth of the twist recursion starting from parent
index `p`. -/
def dirRank (p : ℤ) : ℕ := if p < 0 then 0 else if p < 68 then p.toNat else 1

lemma dirRank_lt_68 (p : ℤ) : dirRank p < 68 := by
  unfold dirRank; split_ifs <;> omega

/-- The twist recursion strictly decreases the depth bound. -/
lemma dirRank_mainParent (p : ℤ) (h : 0 ≤ mainParentIdx p) :
    dirRank (mainParentIdx p) < dirRank p := by
  unfold mainParentIdx at h ⊢
  rcases lt_trichotomy p 0 with hp | hp | hp
  · rw [if_neg (by omega)] at h; omega
  · rw [if_neg (by omega)] at h; omega
  · rw [if_pos hp] at h ⊢
    by_cases h68 : p < 68
    · have hlt := parent_indices_lt p.toNat (by omega) (by omega)
      unfold dirRank
      split_ifs <;> omega
    · have hz := parent_indices_getD_oob p.toNat (by omega)
      rw [hz]
      unfold dirRank
      split_ifs <;> omega

/-- The defining equation of `dirAux` at successor fuel. -/
lemma dirAux_succ (f : ℕ) (p c : ℤ) :
    dirAux (f + 1) p c =
      dirBody
        (if 0 ≤ mainParentIdx p then dirAux f (mainParentIdx p) p else ⟨0, 1, 0⟩)
        p c := rfl

/-- Fuel independence: any fuel exceeding the depth bound gives the same
answer, i.e. the twist recursion in the source terminates within the
fixed budget. -/
lemma dirAux_fuel :
    ∀ f₁ : ℕ, ∀ f₂ : ℕ, ∀ p c : ℤ, dirRank p < f₁ → dirRank p < f₂ →
      dirAux f₁ p c = dirAux f₂ p c := by
  intro f₁
  induction f₁ with
  | zero => intro f₂ p c h1 _; omega
  | succ k ih =>
    intro f₂ p c h1 h2
    match f₂, h2 with
    | m + 1, h2 =>
      rw [dirAux_succ, dirAux_succ]
      congr 1
      by_cases hmp : 0 ≤ mainParentIdx p
      · rw [if_pos hmp, if_pos hmp]
        have hrk := dirRank_mainParent p hmp
        exact ih m (mainParentIdx p) p (by omega) (by omega)
      · rw [if_neg hmp, if_neg hmp]

/-- One-step unfolding of `get_tpose_parent_to_child_direction` with the
recursive call expressed through the function itself. -/
lemma get_tpose_unfold (p c : ℤ) :
    get_tpose_parent_to_child_direction p c =
      dirBody
        (if 0 ≤ mainParentIdx p then
          get_tpose_parent_to_child_direction (mainParentIdx p) p
         else ⟨0, 1, 0⟩)
        p c := by
  have harg :
      (if 0 ≤ mainParentIdx p then dirAux 67 (mainParentIdx p) p else (⟨0, 1, 0⟩ : Vec3)) =
        (if 0 ≤ mainParentIdx p then
          get_tpose_parent_to_child_direction (mainParentIdx p) p
         else ⟨0, 1, 0⟩) := by
    by_cases hmp : 0 ≤ mainParentIdx p
    · rw [if_pos hmp, if_pos hmp]
      show dirAux 67 (mainParentIdx p) p = dirAux 68 (mainParentIdx p) p
      have hrk := dirRank_mainParent p hmp
      have h68 := dirRank_lt_68 p
      exact dirAux_fuel 67 68 (mainParentIdx p) p (by omega) (by omega)
    · rw [if_neg hmp, if_neg hmp]
  rw [show get_tpose_parent_to_child_direction p c = dirAux 68 p c from rfl,
    show (68 : ℕ) = 67 + 1 by norm_num, dirAux_succ, harg]

/-- The seven constant direction vectors that can come out of the
classifier. -/
noncomputable def allowedDirs : List Vec3 :=
  [⟨0, 1, 0⟩, ⟨0, -1, 0⟩, ⟨-1, 0, 0⟩, ⟨1, 0, 0⟩, ⟨0, 0, 1⟩,
   ⟨-0.5, 0, 0.866⟩, ⟨0.5, 0, 0.866⟩]

/-- Both branches of an `if` land in a list, so the `if` does. -/
lemma mem_ite {α : Type} (c : Prop) [Decidable c] {a b : α} {l : List α}
    (ha : a ∈ l) (hb : b ∈ l) : (if c then a else b) ∈ l := by
  split_ifs <;> assumption

/-- Every branch of the classifier body returns either one of the seven
constants or the twist-recursion value. -/
lemma dirBody_mem (tv : Vec3) (htv : tv ∈ allowedDirs) (p c : ℤ) :
    dirBody tv p c ∈ allowedDirs := by
  have h1 : (⟨0, 1, 0⟩ : Vec3) ∈ allowedDirs := by norm_num [allowedDirs]
  have h2 : (⟨0, -1, 0⟩ : Vec3) ∈ allowedDirs := by norm_num [allowedDirs]
  have h3 : (⟨-1, 0, 0⟩ : Vec3) ∈ allowedDirs := by norm_num [allowedDirs]
  have h4 : (⟨1, 0, 0⟩ : Vec3) ∈ allowedDirs := by norm_num [allowedDirs]
  have h5 : (⟨0, 0, 1⟩ : Vec3) ∈ allowedDirs := by norm_num [allowedDirs]
  have h6 : (⟨-0.5, 0, 0.866⟩ : Vec3) ∈ allowedDirs := by norm_num [allowedDirs]
  have h7 : (⟨0.5, 0, 0.866⟩ : Vec3) ∈ allowedDirs := by norm_num [allowedDirs]
  unfold dirBody
  repeat
    first
      | exact htv
      | exact h1
      | exact h2
      | exact h3
      | exact h4
      | exact h5
      | exact h6
      | exact h7
      | apply mem_ite

lemma dirAux_mem : ∀ f : ℕ, ∀ p c : ℤ, dirAux f p c ∈ allowedDirs := by
  intro f
  induction f with
  | zero => intro p c; exact List.mem_cons_self _ _
  | succ k ih =>
    intro p c
    rw [dirAux_succ]
    apply dirBody_mem
    by_cases hmp : 0 ≤ mainParentIdx p
    · rw [if_pos hmp]; exact ih (mainParentIdx p) p
    · rw [if_neg hmp]; exact List.mem_cons_self _ _

/-- The classifier is total: every index pair yields one of the seven
constant vectors. -/
lemma get_tpose_mem (p c : ℤ) :
    get_tpose_parent_to_child_direction p c ∈ allowedDirs :=
  dirAux_mem 68 p c

/-- `QuaternionSolver.normalize_vector` (identical in both solver
classes): the zero-guard returns the Z-up default below the 1e-8
threshold, otherwise the vector is divided by its norm. -/
noncomputable def normalize_vector (v : Vec3) : Vec3 :=
  if v.norm < 1e-8 then ⟨0, 0, 1⟩
  else ⟨v.x / v.norm, v.y / v.norm, v.z / v.norm⟩

/-- `QuaternionSolver.quaternion_multiply` (Hamilton product in
(w, x, y, z) layout). -/
def quaternion_multiply (q1 q2 : Quat) : Quat :=
  ⟨q1.w * q2.w - q1.x * q2.x - q1.y * q2.y - q1.z * q2.z,
   q1.w * q2.x + q1.x * q2.w + q1.y * q2.z - q1.z * q2.y,
   q1.w * q2.y - q1.x * q2.z + q1.y * q2.w + q1.z * q2.x,
   q1.w * q2.z + q1.x * q2.y - q1.y * q2.x + q1.z * q2.w⟩

/-- `QuaternionSolver.quaternion_conjugate`. -/
def quaternion_conjugate (q : Quat) : Quat := ⟨q.w, -q.x, -q.y, -q.z⟩

/-- `np.clip(d, -1.0, 1.0)`. -/
noncomputable def npClip (d : ℝ) : ℝ := min (max d (-1)) 1

/-- `QuaternionSolver.quaternion_from_vectors_standard`: minimal-angle
rotation taking `vec_from` onto `vec_to`, with the antiparallel and
parallel tolerance branches of the source. -/
noncomputable def quaternion_from_vectors_standard (vec_from vec_to : Vec3) : Quat :=
  let f := normalize_vector vec_from
  let t := normalize_vector vec_to
  let dot_product := f.dot t
  if |dot_product + 1| < 1e-6 then
    let perp : Vec3 := if |f.dot ⟨1, 0, 0⟩| > 0.9 then ⟨0, 0, 1⟩ else ⟨1, 0, 0⟩
    ⟨0, perp.x, perp.y, perp.z⟩
  else if |dot_product - 1| < 1e-6 then ⟨1, 0, 0, 0⟩
  else
    let theta := Real.arccos (npClip dot_product)
    let axis := normalize_vector (f.cross t)
    ⟨Real.cos (theta / 2), axis.x * Real.sin (theta / 2),
     axis.y * Real.sin (theta / 2), axis.z * Real.sin (theta / 2)⟩

/-- `QuaternionSolver.compute_bone_orientation`. -/
noncomputable def compute_bone_orientation (bone_index : ℤ) (bone_pos : Vec3)
    (child_index : ℤ) (child_pos : Vec3) : Quat :=
  quaternion_from_vectors_standard
    (get_tpose_parent_to_child_direction bone_index child_index)
    (normalize_vector (child_pos.sub bone_pos))

/-- The loop body of `QuaternionSolver.world_to_local_quaternions`: one
iteration for bone index `bone_idx`, threading the pair
(world_quaternions, local_quaternions) of length-67 arrays. -/
noncomputable def solveStep (world_positions : List Vec3)
    (st : List Quat × List Quat) (bone_idx : ℕ) : List Quat × List Quat :=
  let parent_idx : ℤ := parent_indices.getD bone_idx 0
  let connection_idx := bone_idx - 1
  let parent_pos := world_positions.getD parent_idx.toNat vzero
  let child_pos := world_positions.getD bone_idx vzero
  let world_quat :=
    compute_bone_orientation parent_idx parent_pos (bone_idx : ℤ) child_pos
  let world := st.1.set connection_idx world_quat
  if parent_idx = 0 then
    (world, st.2.set connection_idx world_quat)
  else
    let parent_connection_idx := parent_idx - 1
    if 0 ≤ parent_connection_idx then
      let parent_world_quat := world.getD parent_connection_idx.toNat qzero
      (world,
       st.2.set connection_idx
         (quaternion_multiply (quaternion_conjugate parent_world_quat) world_quat))
    else (world, st.2.set connection_idx world_quat)

/-- `QuaternionSolver.world_to_local_quaternions`: shape-checks the
input (raising `ValueError` otherwise, modelled as `Except.error`), then
runs the connection loop over bone indices 1..67 and returns the
local-quaternion array. -/
noncomputable def world_to_local_quaternions (world_positions : List Vec3) :
    Except String (List Quat) :=
  if world_positions.length ≠ 68 then
    Except.error "Expected shape (68, 3)"
  else
    Except.ok
      (((List.range' 1 67).foldl (solveStep world_positions)
        (List.replicate 67 qzero, List.replicate 67 qzero)).2)

/-- `QuaternionSolver.process_animation_sequence`: the numpy check
`animation_data.shape[1:] != (68, 3)` is modelled on the list of frames
(an ndarray has uniform frame shape, so the check holds exactly when
every frame has 68 rows); the per-frame loop is a `mapM`. -/
noncomputable def process_animation_sequence (animation_data : List (List Vec3)) :
    Except String (List (List Quat)) :=
  if animation_data.all (fun frame => frame.length == 68) then
    animation_data.mapM world_to_local_quaternions
  else
    Except.error "Expected shape (num_frames, 68, 3)"

/-- The world orientation the solver computes for connection `i`
(the connection whose child is bone `i + 1`). -/
noncomputable def worldQuatAt (ps : List Vec3) (i : ℕ) : Quat :=
  compute_bone_orientation (parent_indices.getD (i + 1) 0)
    (ps.getD (parent_indices.getD (i + 1) 0).toNat vzero)
    ((i + 1 : ℕ) : ℤ) (ps.getD (i + 1) vzero)

/-- The local orientation the solver stores for connection `i`: the
world orientation itself for children of the root, and
conjugate(parent world) * world otherwise. -/
noncomputable def localQuatAt (ps : List Vec3) (i : ℕ) : Quat :=
  if parent_indices.getD (i + 1) 0 = 0 then worldQuatAt ps i
  else
    quaternion_multiply
      (quaternion_conjugate (worldQuatAt ps ((parent_indices.getD (i + 1) 0).toNat - 1)))
      (worldQuatAt ps i)

lemma map_range_set (f : ℕ → Quat) (j : ℕ) (v : Quat) :
    ((List.range 67).map f).set j v =
      (List.range 67).map (fun i => if i = j then v else f i) := by
  apply List.ext_getElem
  · simp
  · intro i h1 h2
    simp only [List.getElem_set, List.getElem_map, List.getElem_range]
    by_cases hij : j = i
    · subst hij; simp
    · rw [if_neg hij, if_neg (fun h => hij h.symm)]

lemma map_range_getD (f : ℕ → Quat) (k : ℕ) (d : Quat) :
    ((List.range 67).map f).getD k d = if k < 67 then f k else d := by
  by_cases hk : k < 67
  · rw [if_pos hk, List.getD_eq_getElem _ _ (by simpa using hk)]
    simp
  · rw [if_neg hk, List.getD_eq_default _ _ (by simpa using hk)]

lemma replicate67_eq_map_range (g : ℕ → Quat) (hg : ∀ i, g i = qzero) :
    List.replicate 67 qzero = (List.range 67).map g := by
  apply List.ext_getElem
  · simp
  · intro i h1 h2
    simp only [List.getElem_replicate, List.getElem_map, List.getElem_range, hg]

lemma Vec3.dot_self_nonneg (v : Vec3) : 0 ≤ v.dot v := by
  unfold Vec3.dot
  nlinarith [sq_nonneg v.x, sq_nonneg v.y, sq_nonneg v.z]

lemma Vec3.norm_mul_self (v : Vec3) : v.norm * v.norm = v.dot v :=
  Real.mul_self_sqrt (Vec3.dot_self_nonneg v)

/-- `normalize_vector` always returns a vector of exact unit norm (both
branches: the Z-up default, and the division by a norm ≥ 1e-8). -/
lemma normalize_vector_unit (v : Vec3) :
    (normalize_vector v).dot (normalize_vector v) = 1 := by
  unfold normalize_vector
  split_ifs with h
  · unfold Vec3.dot; norm_num
  · push_neg at h
    have hpos : 0 < v.norm := lt_of_lt_of_le (by norm_num) h
    have hsq := Vec3.norm_mul_self v
    unfold Vec3.dot at hsq ⊢
    have hne : v.norm * v.norm ≠ 0 := ne_of_gt (mul_pos hpos hpos)
    calc v.x / v.norm * (v.x / v.norm) + v.y / v.norm * (v.y / v.norm) +
          v.z / v.norm * (v.z / v.norm)
        = (v.x * v.x + v.y * v.y + v.z * v.z) / (v.norm * v.norm) := by ring
      _ = (v.norm * v.norm) / (v.norm * v.norm) := by rw [hsq]
      _ = 1 := div_self hne

/-- A vector that already has unit dot square passes through
`normalize_vector` unchanged. -/
lemma normalize_vector_of_unit (v : Vec3) (h : v.dot v = 1) :
    normalize_vector v = v := by
  have hn : v.norm = 1 := by unfold Vec3.norm; rw [h]; exact Real.sqrt_one
  unfold normalize_vector
  rw [hn, if_neg (by norm_num)]
  ext <;> simp

/-- Every quaternion produced by `quaternion_from_vectors_standard` has
exact squared norm 1: the two degenerate branches return explicit unit
quaternions, and the trigonometric branch combines a unit axis with
cos²+sin² = 1. -/
lemma qfv_normSq (vf vt : Vec3) :
    (quaternion_from_vectors_standard vf vt).normSq = 1 := by
  unfold quaternion_from_vectors_standard
  dsimp only
  split_ifs with h1 h2 h3
  · unfold Quat.normSq; norm_num
  · unfold Quat.normSq; norm_num
  · unfold Quat.normSq; norm_num
  · have haxis :=
      normalize_vector_unit ((normalize_vector vf).cross (normalize_vector vt))
    unfold Vec3.dot at haxis
    unfold Quat.normSq
    set s := Real.sin (Real.arccos (npClip ((normalize_vector vf).dot (normalize_vector vt))) / 2)
    set co := Real.cos (Real.arccos (npClip ((normalize_vector vf).dot (normalize_vector vt))) / 2)
    have hcs : s ^ 2 + co ^ 2 = 1 := Real.sin_sq_add_cos_sq _
    set ax := (normalize_vector ((normalize_vector vf).cross (normalize_vector vt))).x
    set ay := (normalize_vector ((normalize_vector vf).cross (normalize_vector vt))).y
    set az := (normalize_vector ((normalize_vector vf).cross (normalize_vector vt))).z
    have hexp : co * co + ax * s * (ax * s) + ay * s * (ay * s) + az * s * (az * s)
        = co * co + (ax * ax + ay * ay + az * az) * (s * s) := by ring
    rw [hexp, haxis]
    nlinarith [hcs]

lemma quaternion_multiply_normSq (a b : Quat) :
    (quaternion_multiply a b).normSq = a.normSq * b.normSq := by
  unfold quaternion_multiply Quat.normSq
  ring

lemma quaternion_conjugate_normSq (q : Quat) :
    (quaternion_conjugate q).normSq = q.normSq := by
  unfold quaternion_conjugate Quat.normSq
  ring

lemma quaternion_multiply_assoc (a b c : Quat) :
    quaternion_multiply (quaternion_multiply a b) c =
      quaternion_multiply a (quaternion_multiply b c) := by
  unfold quaternion_multiply
  ext <;> ring

lemma quaternion_mul_conj_self (q : Quat) :
    quaternion_multiply q (quaternion_conjugate q) = ⟨q.normSq, 0, 0, 0⟩ := by
  unfold quaternion_multiply quaternion_conjugate Quat.normSq
  ext <;> ring

lemma quaternion_id_mul (w : Quat) : quaternion_multiply ⟨1, 0, 0, 0⟩ w = w := by
  unfold quaternion_multiply
  ext <;> simp

/-- For a unit quaternion `a`, left-multiplying by `a` undoes
left-multiplication by its conjugate (the recomposition identity). -/
lemma quaternion_recompose (a w : Quat) (ha : a.normSq = 1) :
    quaternion_multiply a (quaternion_multiply (quaternion_conjugate a) w) = w := by
  rw [← quaternion_multiply_assoc, quaternion_mul_conj_self, ha, quaternion_id_mul]

lemma worldQuatAt_def (ps : List Vec3) (m : ℕ) :
    compute_bone_orientation (parent_indices.getD (m + 1) 0)
      (ps.getD (parent_indices.getD (m + 1) 0).toNat vzero)
      ((m + 1 : ℕ) : ℤ) (ps.getD (m + 1) vzero) = worldQuatAt ps m := rfl

/-- The world-array update of one loop iteration fills slot `m` with the
world orientation of connection `m`. -/
lemma set_world_step (ps : List Vec3) (m : ℕ) :
    ((List.range 67).map (fun i => if i < m then worldQuatAt ps i else qzero)).set m
        (worldQuatAt ps m) =
      (List.range 67).map (fun i => if i < m + 1 then worldQuatAt ps i else qzero) := by
  rw [map_range_set]
  congr 1
  funext i
  by_cases him : i = m
  · subst him; rw [if_pos rfl, if_pos (by omega)]
  · rw [if_neg him]
    by_cases hlt : i < m
    · rw [if_pos hlt, if_pos (by omega)]
    · rw [if_neg hlt, if_neg (by omega)]

/-- Same for the local array, with slot value `v = localQuatAt ps m`. -/
lemma set_local_step (ps : List Vec3) (m : ℕ) (v : Quat) (hv : v = localQuatAt ps m) :
    ((List.range 67).map (fun i => if i < m then localQuatAt ps i else qzero)).set m v =
      (List.range 67).map (fun i => if i < m + 1 then localQuatAt ps i else qzero) := by
  rw [map_range_set]
  congr 1
  funext i
  by_cases him : i = m
  · subst him; rw [if_pos rfl, if_pos (by omega), hv]
  · rw [if_neg him]
    by_cases hlt : i < m
    · rw [if_pos hlt, if_pos (by omega)]
    · rw [if_neg hlt, if_neg (by omega)]

/-- One loop iteration of the solver, on the state reached after bones
`1..m`, produces the state for bones `1..m+1`: the world quaternion is
stored at slot `m`, and the local quaternion is the world quaternion for
children of the root and conjugate(parent world) * world otherwise,
reading the parent world quaternion from the already-filled part of the
world array. -/
lemma solveStep_spec (ps : List Vec3) (m : ℕ) (hm : m < 67) :
    solveStep ps
        ((List.range 67).map (fun i => if i < m then worldQuatAt ps i else qzero),
         (List.range 67).map (fun i => if i < m then localQuatAt ps i else qzero))
        (m + 1) =
      ((List.range 67).map (fun i => if i < m + 1 then worldQuatAt ps i else qzero),
       (List.range 67).map (fun i => if i < m + 1 then localQuatAt ps i else qzero)) := by
  have hpar := parent_indices_lt (m + 1) (by omega) (by omega)
  unfold solveStep
  dsimp only
  rw [Nat.add_sub_cancel, worldQuatAt_def, set_world_step]
  by_cases hp0 : parent_indices.getD (m + 1) 0 = 0
  · rw [if_pos hp0]
    simp only [Prod.mk.injEq]
    refine ⟨trivial, set_local_step ps m _ ?_⟩
    unfold localQuatAt
    rw [if_pos hp0]
  · rw [if_neg hp0]
    rw [if_pos (by omega : (0 : ℤ) ≤ parent_indices.getD (m + 1) 0 - 1)]
    simp only [Prod.mk.injEq]
    refine ⟨trivial, set_local_step ps m _ ?_⟩
    rw [map_range_getD]
    rw [if_pos (by omega : (parent_indices.getD (m + 1) 0 - 1).toNat < 67)]
    rw [if_pos (by omega : (parent_indices.getD (m + 1) 0 - 1).toNat < m + 1)]
    unfold localQuatAt
    rw [if_neg hp0,
      show (parent_indices.getD (m + 1) 0 - 1).toNat =
        (parent_indices.getD (m + 1) 0).toNat - 1 by omega]

/-- Characterization of the solver loop: after folding over bone indices
`1..n`, both arrays hold the direct formulas on slots `0..n-1` and zeros
beyond. -/
lemma solve_fold (ps : List Vec3) :
    ∀ n : ℕ, n ≤ 67 →
      (List.range' 1 n).foldl (solveStep ps)
          (List.replicate 67 qzero, List.replicate 67 qzero) =
        ((List.range 67).map (fun i => if i < n then worldQuatAt ps i else qzero),
         (List.range 67).map (fun i => if i < n then localQuatAt ps i else qzero)) := by
  intro n
  induction n with
  | zero =>
    intro _
    rw [show List.range' 1 0 = [] from rfl, List.foldl_nil,
      ← replicate67_eq_map_range _ (fun i => by rw [if_neg (by omega)]),
      ← replicate67_eq_map_range _ (fun i => by rw [if_neg (by omega)])]
  | succ m ih =>
    intro hm
    rw [List.range'_concat, List.foldl_append, ih (by omega),
      show 1 + 1 * m = m + 1 by omega, List.foldl_cons, List.foldl_nil]
    exact solveStep_spec ps m (by omega)

/-- On a correctly-shaped frame, the solver succeeds and returns exactly
the 67 direct-formula local quaternions. -/
lemma world_to_local_ok (ps : List Vec3) (h : ps.length = 68) :
    world_to_local_quaternions ps =
      Except.ok ((List.range 67).map (localQuatAt ps)) := by
  unfold world_to_local_quaternions
  rw [if_neg (by omega)]
  rw [solve_fold ps 67 (le_refl 67)]
  congr 1

lemma worldQuatAt_normSq (ps : List Vec3) (i : ℕ) : (worldQuatAt ps i).normSq = 1 :=
  qfv_normSq _ _

lemma localQuatAt_normSq (ps : List Vec3) (i : ℕ) : (localQuatAt ps i).normSq = 1 := by
  unfold localQuatAt
  split_ifs with h
  · exact worldQuatAt_normSq ps i
  · rw [quaternion_multiply_normSq, quaternion_conjugate_normSq,
      worldQuatAt_normSq, worldQuatAt_normSq, one_mul]

/-- C1: the per-frame solve stores, for each connection, the Hamilton
product conjugate(parent world) * world when the parent joint is not the
root, the world orientation itself when it is, and recomposing
world = parent world * local reproduces the computed world orientation
exactly. -/
theorem c1_local_composition (ps : List Vec3) (h : ps.length = 68) :
    ∃ L : List Quat,
      world_to_local_quaternions ps = Except.ok L ∧ L.length = 67 ∧
      ∀ i : ℕ, i < 67 →
        (parent_indices.getD (i + 1) 0 = 0 → L.getD i qzero = worldQuatAt ps i) ∧
        (parent_indices.getD (i + 1) 0 ≠ 0 →
          L.getD i qzero =
            quaternion_multiply
              (quaternion_conjugate
                (worldQuatAt ps ((parent_indices.getD (i + 1) 0).toNat - 1)))
              (worldQuatAt ps i)) ∧
        (if parent_indices.getD (i + 1) 0 = 0 then L.getD i qzero
         else
          quaternion_multiply
            (worldQuatAt ps ((parent_indices.getD (i + 1) 0).toNat - 1))
            (L.getD i qzero)) = worldQuatAt ps i := by
  refine ⟨(List.range 67).map (localQuatAt ps), world_to_local_ok ps h, by simp, ?_⟩
  intro i hi
  have hL : ((List.range 67).map (localQuatAt ps)).getD i qzero = localQuatAt ps i := by
    rw [map_range_getD, if_pos hi]
  refine ⟨?_, ?_, ?_⟩
  · intro hp0
    rw [hL]
    unfold localQuatAt
    rw [if_pos hp0]
  · intro hp
    rw [hL]
    unfold localQuatAt
    rw [if_neg hp]
  · by_cases hp0 : parent_indices.getD (i + 1) 0 = 0
    · rw [if_pos hp0, hL]
      unfold localQuatAt
      rw [if_pos hp0]
    · rw [if_neg hp0, hL]
      unfold localQuatAt
      rw [if_neg hp0]
      exact quaternion_recompose _ _ (worldQuatAt_normSq ps _)

/-- Witness for C1 at the concrete all-zero frame. -/
theorem c1_witness :
    ∃ L : List Quat,
      world_to_local_quaternions (List.replicate 68 vzero) = Except.ok L ∧
      L.length = 67 ∧
      ∀ i : ℕ, i < 67 →
        (parent_indices.getD (i + 1) 0 = 0 →
          L.getD i qzero = worldQuatAt (List.replicate 68 vzero) i) ∧
        (parent_indices.getD (i + 1) 0 ≠ 0 →
          L.getD i qzero =
            quaternion_multiply
              (quaternion_conjugate
                (worldQuatAt (List.replicate 68 vzero)
                  ((parent_indices.getD (i + 1) 0).toNat - 1)))
              (worldQuatAt (List.replicate 68 vzero) i)) ∧
        (if parent_indices.getD (i + 1) 0 = 0 then L.getD i qzero
         else
          quaternion_multiply
            (worldQuatAt (List.replicate 68 vzero)
              ((parent_indices.getD (i + 1) 0).toNat - 1))
            (L.getD i qzero)) = worldQuatAt (List.replicate 68 vzero) i :=
  c1_local_composition (List.replicate 68 vzero) (by simp)

/-- C3: on every accepted frame every returned local quaternion has
euclidean norm 1 (here: exactly, hence within 1e-6). -/
theorem c3_unit_norm (ps : List Vec3) (h : ps.length = 68) :
    ∃ L : List Quat,
      world_to_local_quaternions ps = Except.ok L ∧
      ∀ q ∈ L, |q.norm - 1| ≤ 1e-6 := by
  refine ⟨_, world_to_local_ok ps h, ?_⟩
  intro q hq
  rw [List.mem_map] at hq
  obtain ⟨i, _, rfl⟩ := hq
  have h1 : (localQuatAt ps i).norm = 1 := by
    unfold Quat.norm
    rw [localQuatAt_normSq]
    exact Real.sqrt_one
  rw [h1]
  norm_num

/-- Witness for C3 at the concrete all-zero frame (all joints
coincident). -/
theorem c3_witness :
    ∃ L : List Quat,
      world_to_local_quaternions (List.replicate 68 vzero) = Except.ok L ∧
      ∀ q ∈ L, |q.norm - 1| ≤ 1e-6 :=
  c3_unit_norm (List.replicate 68 vzero) (by simp)

lemma mapM_wtl_ok (l : List (List Vec3)) (hl : ∀ f ∈ l, f.length = 68) :
    ∃ ys, l.mapM world_to_local_quaternions = Except.ok ys := by
  induction l with
  | nil => exact ⟨[], rfl⟩
  | cons a t ih =>
    obtain ⟨ys, hys⟩ := ih (fun f hf => hl f (List.mem_cons_of_mem a hf))
    refine ⟨(List.range 67).map (localQuatAt a) :: ys, ?_⟩
    rw [List.mapM_cons, world_to_local_ok a (hl a (List.mem_cons_self a t)), hys]
    rfl

/-- C6: the per-frame solve errors exactly when the frame does not have
68 rows, and the animation solve errors exactly when some frame does not
have 68 rows (the numpy shape check; an ndarray has uniform frame
shape), failing before any frame is processed.  Both functions are pure:
rejection returns only an error value, leaving no partial state. -/
theorem c6_shape_validation :
    (∀ ps : List Vec3,
      (∃ e, world_to_local_quaternions ps = Except.error e) ↔ ps.length ≠ 68) ∧
    (∀ anim : List (List Vec3),
      (∃ e, process_animation_sequence anim = Except.error e) ↔
        ∃ frame ∈ anim, frame.length ≠ 68) := by
  constructor
  · intro ps
    constructor
    · intro ⟨e, he⟩
      by_contra hlen
      rw [world_to_local_ok ps (by omega)] at he
      exact Except.noConfusion he
    · intro hlen
      unfold world_to_local_quaternions
      rw [if_pos hlen]
      exact ⟨_, rfl⟩
  · intro anim
    unfold process_animation_sequence
    by_cases hall : anim.all (fun frame => frame.length == 68)
    · rw [if_pos hall]
      rw [List.all_eq_true] at hall
      obtain ⟨ys, hys⟩ := mapM_wtl_ok anim (fun f hf => by
        have := hall f hf
        simpa using this)
      rw [hys]
      constructor
      · intro ⟨e, he⟩
        exact Except.noConfusion he
      · intro ⟨f, hf, hfl⟩
        exact absurd (by simpa using hall f hf) hfl
    · rw [if_neg hall]
      have hex : ∃ f ∈ anim, ¬(f.length == 68) = true := by
        rw [← List.all_eq_false, ← Bool.not_eq_true]
        exact hall
      obtain ⟨f, hf, hfl⟩ := hex
      constructor
      · intro _
        exact ⟨f, hf, by simpa using hfl⟩
      · intro _
        exact ⟨_, rfl⟩

lemma quaternion_conjugate_idQuat : quaternion_conjugate idQuat = idQuat := by
  unfold quaternion_conjugate idQuat
  ext <;> norm_num

lemma Vec3.norm_smul_pos (c : ℝ) (v : Vec3) (hc : 0 ≤ c) :
    (Vec3.smul c v).norm = c * v.norm := by
  unfold Vec3.norm Vec3.smul Vec3.dot
  dsimp only
  rw [show c * v.x * (c * v.x) + c * v.y * (c * v.y) + c * v.z * (c * v.z) =
    c ^ 2 * (v.x * v.x + v.y * v.y + v.z * v.z) by ring]
  rw [Real.sqrt_mul (sq_nonneg c), Real.sqrt_sq hc]

/-- Scaling by a positive factor does not change the normalized vector,
provided neither the scaled vector nor the original is below the
degeneracy threshold. -/
lemma normalize_smul_pos (c : ℝ) (v : Vec3) (hc : 0 < c)
    (hbig : 1e-8 ≤ (Vec3.smul c v).norm) (hv : 1e-8 ≤ v.norm) :
    normalize_vector (Vec3.smul c v) = normalize_vector v := by
  have hnorm := Vec3.norm_smul_pos c v hc.le
  unfold normalize_vector
  rw [if_neg (by linarith), if_neg (by linarith), hnorm]
  ext
  · show c * v.x / (c * v.norm) = v.x / v.norm
    rw [mul_div_mul_left _ _ (ne_of_gt hc)]
  · show c * v.y / (c * v.norm) = v.y / v.norm
    rw [mul_div_mul_left _ _ (ne_of_gt hc)]
  · show c * v.z / (c * v.norm) = v.z / v.norm
    rw [mul_div_mul_left _ _ (ne_of_gt hc)]

/-- Aligning any vector with its own normalized direction yields the
identity quaternion (the parallel branch of the solver fires). -/
lemma qfv_self_normalized (d : Vec3) :
    quaternion_from_vectors_standard d (normalize_vector d) = idQuat := by
  unfold quaternion_from_vectors_standard
  dsimp only
  rw [normalize_vector_of_unit (normalize_vector d) (normalize_vector_unit d),
    normalize_vector_unit d]
  rw [if_neg (by norm_num), if_pos (by norm_num)]
  rfl

/-- Every classifier output has squared norm at least 0.99 (the thumb
vectors have squared norm 0.999956, all others exactly 1). -/
lemma refdir_dot_ge (p c : ℤ) :
    (0.99 : ℝ) ≤ (get_tpose_parent_to_child_direction p c).dot
      (get_tpose_parent_to_child_direction p c) := by
  have hmem := get_tpose_mem p c
  simp only [allowedDirs, List.mem_cons, List.not_mem_nil, or_false] at hmem
  rcases hmem with h | h | h | h | h | h | h <;>
    (rw [h]; unfold Vec3.dot; norm_num)

lemma refdir_norm_ge (p c : ℤ) :
    (1e-8 : ℝ) ≤ (get_tpose_parent_to_child_direction p c).norm := by
  have hdot := refdir_dot_ge p c
  unfold Vec3.norm
  rw [show (1e-8 : ℝ) = Real.sqrt ((1e-8) ^ 2) from (Real.sqrt_sq (by norm_num)).symm]
  apply Real.sqrt_le_sqrt
  nlinarith [hdot]

lemma parent_toNat_lt (n : ℕ) (hn : 1 ≤ n) : (parent_indices.getD n 0).toNat < n := by
  by_cases h : n < 68
  · have := parent_indices_lt n h hn
    omega
  · rw [parent_indices_getD_oob n (by omega)]
    omega

/-- A frame whose bone `b` sits at its parent's position plus
`len b` times the reference direction of its connection (the exact
T-pose family used to instantiate the identity property). -/
noncomputable def tposeFrameAt (len : ℕ → ℝ) : ℕ → Vec3
  | 0 => vzero
  | b + 1 =>
    (tposeFrameAt len (parent_indices.getD (b + 1) 0).toNat).add
      (Vec3.smul (len (b + 1))
        (get_tpose_parent_to_child_direction (parent_indices.getD (b + 1) 0)
          ((b + 1 : ℕ) : ℤ)))
  termination_by b => b
  decreasing_by exact parent_toNat_lt (b + 1) (by omega)

lemma Vec3.add_sub_cancel_left (a v : Vec3) : (a.add v).sub a = v := by
  unfold Vec3.add Vec3.sub
  ext <;> (dsimp only; ring)

lemma tposeFrame_getD (len : ℕ → ℝ) (b : ℕ) (hb : b < 68) :
    ((List.range 68).map (tposeFrameAt len)).getD b vzero = tposeFrameAt len b := by
  rw [List.getD_eq_getElem _ _ (by simpa using hb)]
  simp

lemma tposeFrame_succ (len : ℕ → ℝ) (b : ℕ) :
    tposeFrameAt len (b + 1) =
      (tposeFrameAt len (parent_indices.getD (b + 1) 0).toNat).add
        (Vec3.smul (len (b + 1))
          (get_tpose_parent_to_child_direction (parent_indices.getD (b + 1) 0)
            ((b + 1 : ℕ) : ℤ))) := by
  rw [tposeFrameAt]

/-- In a `tposeFrameAt` frame, every connection's bone vector is exactly
`len (i+1)` times its reference direction. -/
lemma tposeFrame_step (len : ℕ → ℝ) (i : ℕ) (hi : i < 67) :
    (((List.range 68).map (tposeFrameAt len)).getD (i + 1) vzero).sub
      (((List.range 68).map (tposeFrameAt len)).getD
        (parent_indices.getD (i + 1) 0).toNat vzero) =
      Vec3.smul (len (i + 1))
        (get_tpose_parent_to_child_direction (parent_indices.getD (i + 1) 0)
          ((i + 1 : ℕ) : ℤ)) := by
  have hp := parent_indices_lt (i + 1) (by omega) (by omega)
  rw [tposeFrame_getD len (i + 1) (by omega),
    tposeFrame_getD len (parent_indices.getD (i + 1) 0).toNat (by omega),
    tposeFrame_succ len i, Vec3.add_sub_cancel_left]

/-- C2 (amended): if every connection's bone vector equals its reference
direction scaled by a positive length, and each such bone vector is at
least the solver's 1e-8 degeneracy threshold in norm, then every local
quaternion is exactly the identity. -/
theorem c2_tpose_identity (ps : List Vec3) (h : ps.length = 68)
    (htp : ∀ i : ℕ, i < 67 →
      ∃ len : ℝ, 0 < len ∧
        (ps.getD (i + 1) vzero).sub
          (ps.getD (parent_indices.getD (i + 1) 0).toNat vzero) =
          Vec3.smul len
            (get_tpose_parent_to_child_direction (parent_indices.getD (i + 1) 0)
              ((i + 1 : ℕ) : ℤ)) ∧
        1e-8 ≤ ((ps.getD (i + 1) vzero).sub
          (ps.getD (parent_indices.getD (i + 1) 0).toNat vzero)).norm) :
    ∃ L, world_to_local_quaternions ps = Except.ok L ∧ ∀ q ∈ L, q = idQuat := by
  have hworld : ∀ i : ℕ, i < 67 → worldQuatAt ps i = idQuat := by
    intro i hi
    obtain ⟨len, hlen, heq, hbig⟩ := htp i hi
    have hdnorm := refdir_norm_ge (parent_indices.getD (i + 1) 0) ((i + 1 : ℕ) : ℤ)
    unfold worldQuatAt compute_bone_orientation
    rw [heq, normalize_smul_pos len _ hlen (by rw [← heq]; exact hbig) hdnorm]
    exact qfv_self_normalized _
  refine ⟨_, world_to_local_ok ps h, ?_⟩
  intro q hq
  rw [List.mem_map] at hq
  obtain ⟨i, hir, rfl⟩ := hq
  have hi : i < 67 := by simpa using hir
  unfold localQuatAt
  split_ifs with hp0
  · exact hworld i hi
  · have hpar := parent_indices_lt (i + 1) (by omega) (by omega)
    rw [hworld i hi, hworld _ (by omega), quaternion_conjugate_idQuat]
    show quaternion_multiply ⟨1, 0, 0, 0⟩ idQuat = idQuat
    exact quaternion_id_mul idQuat

/-- The T-pose frame with unit bone lengths. -/
noncomputable def tposeUnitFrame : List Vec3 :=
  (List.range 68).map (tposeFrameAt (fun _ => 1))

/-- The unit-length T-pose frame satisfies the (amended) T-pose
hypothesis. -/
lemma tposeUnitFrame_hyp :
    ∀ i : ℕ, i < 67 →
      ∃ len : ℝ, 0 < len ∧
        (tposeUnitFrame.getD (i + 1) vzero).sub
          (tposeUnitFrame.getD (parent_indices.getD (i + 1) 0).toNat vzero) =
          Vec3.smul len
            (get_tpose_parent_to_child_direction (parent_indices.getD (i + 1) 0)
              ((i + 1 : ℕ) : ℤ)) ∧
        1e-8 ≤ ((tposeUnitFrame.getD (i + 1) vzero).sub
          (tposeUnitFrame.getD (parent_indices.getD (i + 1) 0).toNat vzero)).norm := by
  intro i hi
  refine ⟨1, by norm_num, tposeFrame_step (fun _ => 1) i hi, ?_⟩
  unfold tposeUnitFrame
  rw [tposeFrame_step (fun _ => 1) i hi]
  rw [show Vec3.smul 1 (get_tpose_parent_to_child_direction
      (parent_indices.getD (i + 1) 0) ((i + 1 : ℕ) : ℤ)) =
    get_tpose_parent_to_child_direction (parent_indices.getD (i + 1) 0)
      ((i + 1 : ℕ) : ℤ) by unfold Vec3.smul; ext <;> (dsimp only; ring)]
  exact refdir_norm_ge _ _

/-- Witness for C2 (amended) at the unit-length T-pose frame. -/
theorem c2_witness :
    ∃ L, world_to_local_quaternions tposeUnitFrame = Except.ok L ∧
      ∀ q ∈ L, q = idQuat :=
  c2_tpose_identity tposeUnitFrame (by simp [tposeUnitFrame]) tposeUnitFrame_hyp

/-- Bone lengths for the counterexample frame: the root→pelvis bone is
scaled by the positive length 1e-9 (below the solver's degeneracy
threshold), all other bones by 1. -/
noncomputable def c2Len : ℕ → ℝ := fun b => if b = 1 then 1e-9 else 1

/-- The counterexample frame: an exact T-pose with positive bone
lengths, one of which is tiny. -/
noncomputable def c2Frame : List Vec3 := (List.range 68).map (tposeFrameAt c2Len)

lemma tposeFrame_zero (len : ℕ → ℝ) : tposeFrameAt len 0 = vzero := by
  rw [tposeFrameAt]

lemma c2Frame_getD0 : c2Frame.getD ((parent_indices.getD (0 + 1) 0).toNat) vzero = vzero := by
  unfold c2Frame
  rw [show (parent_indices.getD (0 + 1) 0).toNat = 0 from rfl,
    tposeFrame_getD c2Len 0 (by omega), tposeFrame_zero]

lemma c2Frame_getD1 : c2Frame.getD (0 + 1) vzero = ⟨0, 1e-9, 0⟩ := by
  unfold c2Frame
  rw [tposeFrame_getD c2Len (0 + 1) (by omega), tposeFrame_succ]
  rw [show (parent_indices.getD (0 + 1) 0).toNat = 0 from rfl, tposeFrame_zero]
  rw [show get_tpose_parent_to_child_direction (parent_indices.getD (0 + 1) 0)
      ((0 + 1 : ℕ) : ℤ) = ⟨0, 1, 0⟩ from rfl]
  rw [show c2Len (0 + 1) = 1e-9 from rfl]
  unfold vzero Vec3.add Vec3.smul
  ext <;> (dsimp only; norm_num)

lemma normalize_tiny_up : normalize_vector ⟨0, 1e-9, 0⟩ = ⟨0, 0, 1⟩ := by
  have hn : Vec3.norm ⟨0, 1e-9, 0⟩ = 1e-9 := by
    unfold Vec3.norm Vec3.dot
    dsimp only
    rw [show (0 : ℝ) * 0 + 1e-9 * 1e-9 + 0 * 0 = (1e-9) ^ 2 by ring]
    exact Real.sqrt_sq (by norm_num)
  unfold normalize_vector
  rw [hn, if_pos (by norm_num)]

/-- The solver's answer for aligning (0,1,0) with (0,0,1): a 90-degree
rotation about the x axis, computed through the trigonometric branch. -/
lemma qfv_up_z :
    quaternion_from_vectors_standard ⟨0, 1, 0⟩ ⟨0, 0, 1⟩ =
      ⟨Real.cos (Real.pi / 2 / 2), 1 * Real.sin (Real.pi / 2 / 2),
       0 * Real.sin (Real.pi / 2 / 2), 0 * Real.sin (Real.pi / 2 / 2)⟩ := by
  unfold quaternion_from_vectors_standard
  dsimp only
  rw [normalize_vector_of_unit ⟨0, 1, 0⟩ (by unfold Vec3.dot; norm_num),
    normalize_vector_of_unit ⟨0, 0, 1⟩ (by unfold Vec3.dot; norm_num)]
  rw [show (⟨0, 1, 0⟩ : Vec3).dot ⟨0, 0, 1⟩ = 0 by unfold Vec3.dot; norm_num]
  rw [if_neg (by norm_num), if_neg (by norm_num)]
  rw [show npClip 0 = 0 by unfold npClip; norm_num]
  rw [Real.arccos_zero]
  rw [show (⟨0, 1, 0⟩ : Vec3).cross ⟨0, 0, 1⟩ = ⟨1, 0, 0⟩ by
    unfold Vec3.cross; ext <;> (dsimp only; norm_num)]
  rw [normalize_vector_of_unit ⟨1, 0, 0⟩ (by unfold Vec3.dot; norm_num)]

/-- C2 counterexample: this frame satisfies the claim's hypothesis as
stated (every child sits at its parent plus the reference direction
scaled by a positive length), yet the root→pelvis local quaternion is a
90-degree rotation, nowhere near the identity: the claim as written is
false on the code, because lengths below the 1e-8 degeneracy threshold
divert the observed direction to the (0,0,1) fallback. -/
theorem c2_counterexample :
    c2Frame.length = 68 ∧
    (∀ i : ℕ, i < 67 →
      ∃ len : ℝ, 0 < len ∧
        (c2Frame.getD (i + 1) vzero).sub
          (c2Frame.getD (parent_indices.getD (i + 1) 0).toNat vzero) =
          Vec3.smul len
            (get_tpose_parent_to_child_direction (parent_indices.getD (i + 1) 0)
              ((i + 1 : ℕ) : ℤ))) ∧
    ∃ L, world_to_local_quaternions c2Frame = Except.ok L ∧
      ∃ q ∈ L, ¬ |q.w - 1| ≤ 1e-2 := by
  refine ⟨by simp [c2Frame], ?_, ?_⟩
  · intro i hi
    refine ⟨c2Len (i + 1), ?_, ?_⟩
    · unfold c2Len; split_ifs <;> norm_num
    · exact tposeFrame_step c2Len i hi
  · refine ⟨_, world_to_local_ok c2Frame (by simp [c2Frame]), ?_⟩
    refine ⟨localQuatAt c2Frame 0, List.mem_map.mpr ⟨0, by simp, rfl⟩, ?_⟩
    unfold localQuatAt
    rw [if_pos (show parent_indices.getD (0 + 1) 0 = 0 from rfl)]
    unfold worldQuatAt compute_bone_orientation
    rw [show get_tpose_parent_to_child_direction (parent_indices.getD (0 + 1) 0)
        ((0 + 1 : ℕ) : ℤ) = ⟨0, 1, 0⟩ from rfl]
    rw [c2Frame_getD1, c2Frame_getD0]
    rw [show (⟨0, 1e-9, 0⟩ : Vec3).sub vzero = ⟨0, 1e-9, 0⟩ by
      unfold Vec3.sub vzero; ext <;> (dsimp only; norm_num)]
    rw [normalize_tiny_up, qfv_up_z]
    dsimp only
    rw [show Real.pi / 2 / 2 = Real.pi / 4 by ring, Real.cos_pi_div_four]
    have h2 : Real.sqrt 2 < 1.5 := by
      nlinarith [Real.sq_sqrt (show (0 : ℝ) ≤ 2 by norm_num), Real.sqrt_nonneg 2]
    have hlt : Real.sqrt 2 / 2 - 1 < 0 := by nlinarith
    rw [abs_of_neg hlt]
    intro hcon
    nlinarith

/-- C4 (amended): in the antiparallel branch the solver returns the
quaternion (0, h) whose vector part is the helper axis itself — (0,0,1)
when |dot(from, (1,0,0))| > 0.9 and (1,0,0) otherwise — not the
normalized cross product of `from` with the helper. -/
theorem c4_fallback_axis (vf vt : Vec3)
    (h : |(normalize_vector vf).dot (normalize_vector vt) + 1| < 1e-6) :
    quaternion_from_vectors_standard vf vt =
      ⟨0,
       (if |(normalize_vector vf).dot ⟨1, 0, 0⟩| > 0.9 then (⟨0, 0, 1⟩ : Vec3)
        else ⟨1, 0, 0⟩).x,
       (if |(normalize_vector vf).dot ⟨1, 0, 0⟩| > 0.9 then (⟨0, 0, 1⟩ : Vec3)
        else ⟨1, 0, 0⟩).y,
       (if |(normalize_vector vf).dot ⟨1, 0, 0⟩| > 0.9 then (⟨0, 0, 1⟩ : Vec3)
        else ⟨1, 0, 0⟩).z⟩ := by
  unfold quaternion_from_vectors_standard
  dsimp only
  rw [if_pos h]

/-- Witness for C4 (amended) at from = (1,0,0), to = (-1,0,0): the
fallback fires, the result is (0,0,0,1), and its vector part (0,0,1) is
a unit vector orthogonal to (1,0,0). -/
theorem c4_witness :
    (|(normalize_vector ⟨1, 0, 0⟩).dot (normalize_vector ⟨-1, 0, 0⟩) + 1| < 1e-6) ∧
    quaternion_from_vectors_standard ⟨1, 0, 0⟩ ⟨-1, 0, 0⟩ = ⟨0, 0, 0, 1⟩ ∧
    (⟨0, 0, 1⟩ : Vec3).dot ⟨0, 0, 1⟩ = 1 ∧
    (⟨0, 0, 1⟩ : Vec3).dot ⟨1, 0, 0⟩ = 0 := by
  have hn1 : normalize_vector ⟨1, 0, 0⟩ = ⟨1, 0, 0⟩ :=
    normalize_vector_of_unit _ (by unfold Vec3.dot; norm_num)
  have hn2 : normalize_vector ⟨-1, 0, 0⟩ = ⟨-1, 0, 0⟩ :=
    normalize_vector_of_unit _ (by unfold Vec3.dot; norm_num)
  have hh : |(normalize_vector ⟨1, 0, 0⟩).dot (normalize_vector ⟨-1, 0, 0⟩) + 1| < 1e-6 := by
    rw [hn1, hn2]
    rw [show (⟨1, 0, 0⟩ : Vec3).dot ⟨-1, 0, 0⟩ = -1 by unfold Vec3.dot; norm_num]
    norm_num
  refine ⟨hh, ?_, by unfold Vec3.dot; norm_num, by unfold Vec3.dot; norm_num⟩
  rw [c4_fallback_axis _ _ hh]
  rw [if_pos (by
    rw [hn1, show (⟨1, 0, 0⟩ : Vec3).dot ⟨1, 0, 0⟩ = 1 by unfold Vec3.dot; norm_num]
    norm_num)]

/-- C4 counterexample: at from = (1,0,0), to = (-1,0,0) the code returns
(0, 0, 0, 1), whereas the normalized cross product of `from` with the
chosen helper (0,0,1) — the vector the claim says is returned — is
(0,-1,0), a different vector. -/
theorem c4_counterexample :
    quaternion_from_vectors_standard ⟨1, 0, 0⟩ ⟨-1, 0, 0⟩ = ⟨0, 0, 0, 1⟩ ∧
    normalize_vector ((⟨1, 0, 0⟩ : Vec3).cross ⟨0, 0, 1⟩) = ⟨0, -1, 0⟩ ∧
    ¬ ((⟨0, 0, 1⟩ : Vec3) = ⟨0, -1, 0⟩) := by
  have hn1 : normalize_vector ⟨1, 0, 0⟩ = ⟨1, 0, 0⟩ :=
    normalize_vector_of_unit _ (by unfold Vec3.dot; norm_num)
  have hn2 : normalize_vector ⟨-1, 0, 0⟩ = ⟨-1, 0, 0⟩ :=
    normalize_vector_of_unit _ (by unfold Vec3.dot; norm_num)
  refine ⟨?_, ?_, ?_⟩
  · unfold quaternion_from_vectors_standard
    dsimp only
    rw [hn1, hn2]
    rw [show (⟨1, 0, 0⟩ : Vec3).dot ⟨-1, 0, 0⟩ = -1 by unfold Vec3.dot; norm_num]
    rw [if_pos (by norm_num)]
    rw [if_pos (by
      rw [show (⟨1, 0, 0⟩ : Vec3).dot ⟨1, 0, 0⟩ = 1 by unfold Vec3.dot; norm_num]
      norm_num)]
  · rw [show (⟨1, 0, 0⟩ : Vec3).cross ⟨0, 0, 1⟩ = ⟨0, -1, 0⟩ by
      unfold Vec3.cross; ext <;> (dsimp only; norm_num)]
    exact normalize_vector_of_unit _ (by unfold Vec3.dot; norm_num)
  · intro hcon
    have := congrArg Vec3.z hcon
    dsimp only at this
    norm_num at this

/-- C8 counterexample: the hand_l→thumb_01_l connection (indices 10, 11)
returns (-0.5, 0, 0.866), whose euclidean norm is not 1. -/
theorem c8_counterexample :
    get_tpose_parent_to_child_direction 10 11 = ⟨-0.5, 0, 0.866⟩ ∧
    ¬ ((get_tpose_parent_to_child_direction 10 11).norm = 1) := by
  have h : get_tpose_parent_to_child_direction 10 11 = ⟨-0.5, 0, 0.866⟩ := rfl
  refine ⟨h, ?_⟩
  rw [h]
  unfold Vec3.norm Vec3.dot
  dsimp only
  intro hcon
  have h1 := Real.sqrt_eq_one.mp hcon
  norm_num at h1

/-- C8 (amended): every in-range pair yields a vector of euclidean norm
exactly 1, except the pairs classified into the thumb branches, which
yield (±0.5, 0, 0.866) of squared norm 0.999956. -/
theorem c8_unit_directions (p c : ℤ)
    (_hp0 : 0 ≤ p) (_hp1 : p < 68) (_hc0 : 0 ≤ c) (_hc1 : c < 68) :
    (get_tpose_parent_to_child_direction p c).norm = 1 ∨
    ((get_tpose_parent_to_child_direction p c = ⟨-0.5, 0, 0.866⟩ ∨
      get_tpose_parent_to_child_direction p c = ⟨0.5, 0, 0.866⟩) ∧
     (get_tpose_parent_to_child_direction p c).dot
       (get_tpose_parent_to_child_direction p c) = 0.999956) := by
  have hmem := get_tpose_mem p c
  simp only [allowedDirs, List.mem_cons, List.not_mem_nil, or_false] at hmem
  rcases hmem with h | h | h | h | h | h | h
  · left; rw [h]; unfold Vec3.norm Vec3.dot; dsimp only
    rw [show (0 : ℝ) * 0 + 1 * 1 + 0 * 0 = 1 by ring]; exact Real.sqrt_one
  · left; rw [h]; unfold Vec3.norm Vec3.dot; dsimp only
    rw [show (0 : ℝ) * 0 + -1 * -1 + 0 * 0 = 1 by ring]; exact Real.sqrt_one
  · left; rw [h]; unfold Vec3.norm Vec3.dot; dsimp only
    rw [show (-1 : ℝ) * -1 + 0 * 0 + 0 * 0 = 1 by ring]; exact Real.sqrt_one
  · left; rw [h]; unfold Vec3.norm Vec3.dot; dsimp only
    rw [show (1 : ℝ) * 1 + 0 * 0 + 0 * 0 = 1 by ring]; exact Real.sqrt_one
  · left; rw [h]; unfold Vec3.norm Vec3.dot; dsimp only
    rw [show (0 : ℝ) * 0 + 0 * 0 + 1 * 1 = 1 by ring]; exact Real.sqrt_one
  · right; refine ⟨Or.inl h, ?_⟩; rw [h]; unfold Vec3.dot; dsimp only; norm_num
  · right; refine ⟨Or.inr h, ?_⟩; rw [h]; unfold Vec3.dot; dsimp only; norm_num

/-- Witness for C8 (amended) at the thumb pair (10, 11). -/
theorem c8_witness :
    (get_tpose_parent_to_child_direction 10 11).norm = 1 ∨
    ((get_tpose_parent_to_child_direction 10 11 = ⟨-0.5, 0, 0.866⟩ ∨
      get_tpose_parent_to_child_direction 10 11 = ⟨0.5, 0, 0.866⟩) ∧
     (get_tpose_parent_to_child_direction 10 11).dot
       (get_tpose_parent_to_child_direction 10 11) = 0.999956) :=
  c8_unit_directions 10 11 (by norm_num) (by norm_num) (by norm_num) (by norm_num)

lemma dirBody_oob (tv : Vec3) (p c : ℤ)
    (h : p < 0 ∨ c < 0 ∨ 68 ≤ p ∨ 68 ≤ c) : dirBody tv p c = ⟨0, 1, 0⟩ := by
  unfold dirBody
  rw [if_pos (by rw [bone_names_length]; push_cast; omega)]

/-- C9: the reference-direction lookup is a total function: it is
fuel-independent above the fixed budget (the twist recursion always
terminates within it), always returns one of the seven constant
vectors, returns the (0,1,0) default on any out-of-range index pair,
and returns (0,1,0) on an unmatched in-range pair such as
root→spine_01. -/
theorem c9_total_lookup :
    (∀ p c : ℤ, ∀ f : ℕ, 68 ≤ f →
      dirAux f p c = get_tpose_parent_to_child_direction p c) ∧
    (∀ p c : ℤ, get_tpose_parent_to_child_direction p c ∈ allowedDirs) ∧
    (∀ p c : ℤ, p < 0 ∨ c < 0 ∨ 68 ≤ p ∨ 68 ≤ c →
      get_tpose_parent_to_child_direction p c = ⟨0, 1, 0⟩) ∧
    get_tpose_parent_to_child_direction 0 2 = ⟨0, 1, 0⟩ := by
  refine ⟨?_, get_tpose_mem, ?_, rfl⟩
  · intro p c f hf
    have hr := dirRank_lt_68 p
    exact dirAux_fuel f 68 p c (by omega) (by omega)
  · intro p c h
    rw [get_tpose_unfold]
    exact dirBody_oob _ p c h

/-- Witness for C9: fuel 100 agrees with the canonical fuel 68 on the
twist pair (8, 67), and an out-of-range pair yields the default. -/
theorem c9_witness :
    dirAux 100 8 67 = get_tpose_parent_to_child_direction 8 67 ∧
    get_tpose_parent_to_child_direction (-1) 3 = ⟨0, 1, 0⟩ :=
  ⟨c9_total_lookup.1 8 67 100 (by norm_num),
   c9_total_lookup.2.2.1 (-1) 3 (by norm_num)⟩

/-- C10: the hardcoded parent table has -1 exactly at index 0, every
other entry is a nonnegative index strictly smaller than its own, and
consequently in the solver's ascending child-index loop the parent
connection slot (parent index minus 1) lies strictly before the current
connection slot, so it has already been written. -/
theorem c10_parent_table :
    parent_indices.getD 0 0 = -1 ∧
    (∀ i : ℕ, 1 ≤ i → i < 68 →
      0 ≤ parent_indices.getD i 0 ∧ parent_indices.getD i 0 < (i : ℤ)) ∧
    (∀ i : ℕ, 1 ≤ i → i < 68 → parent_indices.getD i 0 ≠ 0 →
      (parent_indices.getD i 0).toNat - 1 < i - 1) := by
  refine ⟨rfl, ?_, ?_⟩
  · intro i h1 h2
    exact parent_indices_lt i h2 h1
  · intro i h1 h2 h3
    have := parent_indices_lt i h2 h1
    omega

/-- Witness for C10 at bone indices 1 and 2. -/
theorem c10_witness :
    (0 ≤ parent_indices.getD 1 0 ∧ parent_indices.getD 1 0 < (1 : ℤ)) ∧
    (parent_indices.getD 2 0).toNat - 1 < 2 - 1 :=
  ⟨c10_parent_table.2.1 1 (by norm_num) (by norm_num),
   c10_parent_table.2.2 2 (by norm_num) (by norm_num) (by decide)⟩

/-- `URDFLink` from `urdf_parser.py`. -/
structure URDFLink where
  name : String
  index : ℕ

/-- `URDFJoint` from `urdf_parser.py`. -/
structure URDFJoint where
  name : String
  joint_type : String
  parent_link : String
  child_link : String
  parent_index : ℤ
  child_index : ℤ
  axis : Vec3
  tpose_direction : Vec3
  origin : Option Vec3

/-- The links that no joint has as a child — the candidate roots counted
by `URDFParser.validate_structure`. -/
def root_links (links : List URDFLink) (joints : List URDFJoint) : List URDFLink :=
  links.filter (fun link => ! joints.any (fun j => j.child_index == (link.index : ℤ)))

/-- `URDFParser.validate_structure`: the root-link count is only
*printed* as a warning and does not affect the returned value; the
function returns `false` exactly when some joint's parent or child index
is out of range. -/
def validate_structure (links : List URDFLink) (joints : List URDFJoint) : Bool :=
  joints.all (fun j =>
    decide (0 ≤ j.parent_index) && decide (j.parent_index < (links.length : ℤ)) &&
    decide (0 ≤ j.child_index) && decide (j.child_index < (links.length : ℤ)))

/-- `QuaternionSolverXML.__init__` after parsing: raises `ValueError`
exactly when `validate_structure` returns false. -/
def quaternionSolverXML_init (links : List URDFLink) (joints : List URDFJoint) :
    Except String Unit :=
  if validate_structure links joints then Except.ok ()
  else Except.error "URDF structure validation failed"

/-- C7 counterexample topology: two links and no joints, hence two
links without an incoming connection (two roots). -/
def c7Links : List URDFLink := [⟨"a", 0⟩, ⟨"b", 1⟩]

/-- C7 counterexample: with zero joints both links are roots, yet
`validate_structure` returns true and construction succeeds — a
multiple-root topology does not fail fatally. -/
theorem c7_counterexample :
    (root_links c7Links []).length = 2 ∧
    validate_structure c7Links [] = true ∧
    quaternionSolverXML_init c7Links [] = Except.ok () :=
  ⟨rfl, rfl, rfl⟩

/-- C7 (amended): construction of the XML solver fails if and only if
some joint's resolved parent or child index is out of range; a wrong
root count is only reported as a printed warning and never aborts
construction. -/
theorem c7_validation (links : List URDFLink) (joints : List URDFJoint) :
    (∃ e, quaternionSolverXML_init links joints = Except.error e) ↔
      ∃ j ∈ joints,
        j.parent_index < 0 ∨ (links.length : ℤ) ≤ j.parent_index ∨
        j.child_index < 0 ∨ (links.length : ℤ) ≤ j.child_index := by
  unfold quaternionSolverXML_init
  by_cases h : validate_structure links joints
  · rw [if_pos h]
    unfold validate_structure at h
    rw [List.all_eq_true] at h
    constructor
    · intro ⟨e, he⟩
      exact Except.noConfusion he
    · intro ⟨j, hj, hbad⟩
      have := h j hj
      simp only [Bool.and_eq_true, decide_eq_true_eq] at this
      omega
  · rw [if_neg h]
    unfold validate_structure at h
    have hex : ∃ j ∈ joints, ¬(decide (0 ≤ j.parent_index) &&
        decide (j.parent_index < (links.length : ℤ)) &&
        decide (0 ≤ j.child_index) &&
        decide (j.child_index < (links.length : ℤ))) = true := by
      rw [← List.all_eq_false, ← Bool.not_eq_true]
      exact h
    obtain ⟨j, hj, hbad⟩ := hex
    simp only [Bool.and_eq_true, decide_eq_true_eq, not_and_or, not_le, not_lt] at hbad
    constructor
    · intro _
      refine ⟨j, hj, ?_⟩
      omega
    · intro _
      exact ⟨_, rfl⟩

/-- `QuaternionSolverXML.compute_joint_orientation`.  For an actual
joint the `joint.name == None` test is always false (parsed names are
strings), so the T-pose direction of the joint is used; calling it with
`joint = None` — as the root handling of `world_to_local_quaternions`
does — dereferences `None.name` and raises `AttributeError`, modelled as
an error value. -/
noncomputable def compute_joint_orientation (joint : Option URDFJoint)
    (parent_pos child_pos : Vec3) : Except String Quat :=
  match joint with
  | none => Except.error "AttributeError"
  | some j =>
    Except.ok
      (quaternion_from_vectors_standard j.tpose_direction
        (normalize_vector (child_pos.sub parent_pos)))

/-- `QuaternionSolverXML.world_to_local_quaternions`: shape check, then
the root special case (`np.allclose(root_pos, zeros)` is the
componentwise bound |·| ≤ 1e-8 since rtol multiplies the zero target),
then one orientation per joint in file order, any raised exception
propagating. -/
noncomputable def xml_world_to_local_quaternions (numLinks : ℕ)
    (joints : List URDFJoint) (world_positions : List Vec3) :
    Except String (List Quat) :=
  if world_positions.length ≠ numLinks then
    Except.error "Expected shape"
  else
    match
      (if |(world_positions.getD 0 vzero).x| ≤ 1e-8 ∧
          |(world_positions.getD 0 vzero).y| ≤ 1e-8 ∧
          |(world_positions.getD 0 vzero).z| ≤ 1e-8 then
        Except.ok idQuat
       else compute_joint_orientation none vzero (world_positions.getD 0 vzero)) with
    | Except.error e => Except.error e
    | Except.ok root_orientation =>
      match
        joints.mapM (fun j =>
          compute_joint_orientation (some j)
            (world_positions.getD j.parent_index.toNat vzero)
            (world_positions.getD j.child_index.toNat vzero)) with
      | Except.error e => Except.error e
      | Except.ok rest => Except.ok (root_orientation :: rest)

/-- The single root→pelvis joint used for the C5 evaluation. -/
noncomputable def c5Joint : URDFJoint :=
  ⟨"root_to_pelvis", "fixed", "root", "pelvis", 0, 1, ⟨0, 0, 1⟩, ⟨0, 1, 0⟩, none⟩

/-- C5 evaluation: with the root at the origin the solve succeeds and
the root entry is the identity quaternion, but with the root anywhere
else (here (0,1,0)) the whole per-frame solve raises — the
direction-to-direction quaternion for the root is never computed,
because `compute_joint_orientation(None, ...)` dereferences
`None.name`. -/
theorem c5_root_crash :
    xml_world_to_local_quaternions 2 [c5Joint] [⟨0, 1, 0⟩, ⟨0, 2, 0⟩] =
      Except.error "AttributeError" ∧
    xml_world_to_local_quaternions 2 [c5Joint] [⟨0, 0, 0⟩, ⟨0, 1, 0⟩] =
      Except.ok [idQuat, idQuat] := by
  constructor
  · unfold xml_world_to_local_quaternions
    rw [if_neg (by simp)]
    rw [show (([⟨0, 1, 0⟩, ⟨0, 2, 0⟩] : List Vec3).getD 0 vzero) = ⟨0, 1, 0⟩ from rfl]
    rw [if_neg (by
      intro hcon
      have := hcon.2.1
      dsimp only at this
      rw [abs_of_pos (by norm_num)] at this
      norm_num at this)]
    rfl
  · unfold xml_world_to_local_quaternions
    rw [if_neg (by simp)]
    rw [show (([⟨0, 0, 0⟩, ⟨0, 1, 0⟩] : List Vec3).getD 0 vzero) = ⟨0, 0, 0⟩ from rfl]
    rw [if_pos (by
      refine ⟨?_, ?_, ?_⟩ <;> (dsimp only; rw [abs_of_nonneg (by norm_num)]; norm_num))]
    have hjoint :
        compute_joint_orientation (some c5Joint)
          (([⟨0, 0, 0⟩, ⟨0, 1, 0⟩] : List Vec3).getD c5Joint.parent_index.toNat vzero)
          (([⟨0, 0, 0⟩, ⟨0, 1, 0⟩] : List Vec3).getD c5Joint.child_index.toNat vzero) =
        Except.ok idQuat := by
      rw [show (([⟨0, 0, 0⟩, ⟨0, 1, 0⟩] : List Vec3).getD c5Joint.parent_index.toNat vzero)
          = ⟨0, 0, 0⟩ from rfl,
        show (([⟨0, 0, 0⟩, ⟨0, 1, 0⟩] : List Vec3).getD c5Joint.child_index.toNat vzero)
          = ⟨0, 1, 0⟩ from rfl]
      unfold compute_joint_orientation
      dsimp only
      rw [show (⟨0, 1, 0⟩ : Vec3).sub ⟨0, 0, 0⟩ = ⟨0, 1, 0⟩ by
        unfold Vec3.sub; ext <;> (dsimp only; norm_num)]
      rw [show c5Joint.tpose_direction = ⟨0, 1, 0⟩ from rfl]
      rw [qfv_self_normalized]
    rw [List.mapM_cons, hjoint, List.mapM_nil]
    rfl
